import Mathlib

/-!
Shallow embedding of `src/bi-encode/modeling.py` from the
utility-focused-annotation repository.

Tensors are modelled as nested lists over a linearly ordered field `α`
(instantiate `α := ℝ` for the real-valued semantics of the floating-point
code; the structural theorems below hold for every such field).  The
elementwise float functions `torch.exp` / `torch.log` that appear inside
the loss formulas are threaded through as explicit function parameters
`exp log : α → α`, so every definition stays executable and the theorems
about the loss-engine *structure* (masking, averaging, degenerate-batch
handling) hold for the actual real exponential in particular.

Python functions that can raise are embedded with `Except String`:
`Except.error msg` models an uncaught Python exception, `Except.ok v` a
normal return of value `v` (`v : Option _` when the Python value may be
`None`).
-/

namespace BiEncode

/-- A 2-D tensor: a list of rows. -/
abbrev Mat (α : Type) := List (List α)

variable {α : Type} [LinearOrderedField α]

/-- Dot product of two rows (`torch` elementwise product then sum). -/
def dotL (a b : List α) : α := (List.zipWith (fun x y => x * y) a b).sum

/-- Entry `M[i][j]` of a matrix, with default `0` out of bounds. -/
def entryD (M : Mat α) (i j : ℕ) : α := (M.getD i []).getD j 0

namespace BiEncoderModel

/-- `compute_similarity(q_reps, p_reps)` (modeling.py:131-134):
`torch.matmul(q_reps, p_reps.transpose(0, 1))` for 2-D inputs, i.e. the
matrix whose `(i, j)` entry is the dot product of query row `i` with
passage row `j`. -/
def compute_similarity (q_reps p_reps : Mat α) : Mat α :=
  q_reps.map (fun q => p_reps.map (fun p => dotL q p))

/-- `sentence_embedding`, `'mean'` branch (modeling.py:100-103):
`s = torch.sum(hidden_state * mask.unsqueeze(-1).float(), dim=1)`,
`d = mask.sum(axis=1, keepdim=True)`, result `s / d`.
`hidden_state` is batch-of-(sequence-of-token-vectors), `mask` is
batch-of-(sequence-of-scalars); the mask scalar is broadcast over the
hidden dimension. -/
def vecAdd (a b : List α) : List α := List.zipWith (fun x y => x + y) a b

/-- Sum of a list of equal-length vectors along the sequence axis
(`torch.sum(..., dim=1)`). -/
def sumVecs : List (List α) → List α
  | [] => []
  | v :: vs => vs.foldl vecAdd v

/-- Mean pooling: per example, masked token-vector sum divided by the
example's mask sum. -/
def meanPool (hidden_state : List (Mat α)) (mask : Mat α) : Mat α :=
  List.zipWith
    (fun hb mb =>
      let s := sumVecs (List.zipWith (fun hv m => hv.map (fun x => x * m)) hb mb)
      let d := mb.sum
      s.map (fun x => x / d))
    hidden_state mask

/-- `'cls'` branch (modeling.py:104-105): `hidden_state[:, 0]`. -/
def clsPool (hidden_state : List (Mat α)) : Mat α :=
  hidden_state.map (fun hb => hb.getD 0 [])

/-- `sentence_embedding(hidden_state, mask)` (modeling.py:99-105).
The Python body is `if method == 'mean': ... elif method == 'cls': ...`
with no `else` branch and no `raise`, so an unrecognized method falls
through and the function returns `None`; `Except.error` (an exception)
never occurs. -/
def sentence_embedding (method : String) (hidden_state : List (Mat α))
    (mask : Mat α) : Except String (Option (Mat α)) :=
  if method = "mean" then .ok (some (meanPool hidden_state mask))
  else if method = "cls" then .ok (some (clsPool hidden_state))
  else .ok none

/-- The implicit (no-teacher) integer class target (modeling.py:227-228):
`target = torch.arange(scores.size(0)); target = target * (p_reps.size(0) // q_reps.size(0))`
where `scores.size(0) = q_reps.size(0)`; `//` is Python floor division. -/
def implicitTarget (Q P : ℕ) : List ℕ :=
  (List.range Q).map (fun i => i * (P / Q))

/-- The scatter index matrix (modeling.py:214):
`torch.arange(B).unsqueeze(1) * N + torch.arange(N)`, i.e.
`indices[i][j] = i * N + j`. -/
def teacherIndices (B N : ℕ) : List (List ℕ) :=
  (List.range B).map (fun i => (List.range N).map (fun j => i * N + j))

/-- One row of `Tensor.scatter_(1, index, src)`: write `src[k]` into
position `index[k]` of the row, for `k = 0, 1, ...` in order. -/
def scatterRow : List α → List ℕ → List α → List α
  | row, [], _ => row
  | row, _, [] => row
  | row, i :: is, v :: vs => scatterRow (row.set i v) is vs

/-- `target.scatter_(1, indices, src)` along dim 1: rows beyond the index
matrix are left unchanged. -/
def scatterDim1 : Mat α → List (List ℕ) → Mat α → Mat α
  | [], _, _ => []
  | t, [], _ => t
  | t, _, [] => t
  | tr :: t, ir :: idx, sr :: src => scatterRow tr ir sr :: scatterDim1 t idx src

/-- Teacher-distilled target construction (modeling.py:211-215):
`target = torch.zeros_like(scores)`; `B, N = teacher_score.shape`;
`target.scatter_(1, indices, teacher_score)` with `indices[i][j] = i*N + j`. -/
def buildTarget (scores teacher_score : Mat α) : Mat α :=
  let target : Mat α := scores.map (fun row => row.map (fun _ => (0 : α)))
  let B := teacher_score.length
  let N := (teacher_score.headD []).length
  scatterDim1 target (teacherIndices B N) teacher_score

/-- `_dist_gather_tensor(t)` (modeling.py:244-255).  `all_gather` models
the collective: it returns the `world_size` buffers as filled by
`dist.all_gather` (its contract is `(all_gather t).length = world_size`).
The slot at `process_rank` is then overwritten with the local tensor
`t` and all slots are concatenated along dim 0 (`List.join` on rows). -/
def dist_gather_tensor (process_rank : ℕ) (all_gather : Mat α → List (Mat α)) :
    Option (Mat α) → Option (Mat α)
  | none => none
  | some t => some (((all_gather t).set process_rank t).flatten)

/-- `log(sum(exp(row)))`, the normalizer of a softmax row (`exp`/`log`
are the elementwise float functions, passed explicitly). -/
def logSumExp (exp log : α → α) (row : List α) : α :=
  log ((row.map exp).sum)

/-- One softmax row: `F.softmax(s, dim=-1)[j] = exp(s[j]) / sum(exp(s))`. -/
def softmaxRow (exp : α → α) (s : List α) : List α :=
  s.map (fun x => exp x / (s.map exp).sum)

/-- `nn.CrossEntropyLoss(reduction='none')` on one example with a float
(class-probability) target row:
`-(sum over j of t[j] * (s[j] - log(sum(exp(s)))))` — PyTorch's soft-label
cross entropy. -/
def softCERow (exp log : α → α) (s t : List α) : α :=
  -(List.zipWith (fun tj sj => tj * (sj - logSumExp exp log s)) t s).sum

/-- `nn.CrossEntropyLoss(reduction='none')` on one example with an integer
class-index target: `log(sum(exp(s))) - s[c]`. -/
def ceRowIdx (exp log : α → α) (s : List α) (c : ℕ) : α :=
  logSumExp exp log s - s.getD c 0

/-- `self.cross_entropy = nn.CrossEntropyLoss(reduction='mean')` applied to
a batch with integer class-index targets. -/
def ceMeanIdx (exp log : α → α) (scores : Mat α) (target : List ℕ) : α :=
  let losses := List.zipWith (ceRowIdx exp log) scores target
  losses.sum / (losses.length : α)

/-- `nn.CrossEntropyLoss(reduction='mean')` applied to a batch with a float
(class-probability) target matrix. -/
def ceMeanProb (exp log : α → α) (scores target : Mat α) : α :=
  let losses := List.zipWith (softCERow exp log) scores target
  losses.sum / (losses.length : α)

/-- The per-example unreduced losses of the `'multi-softmax'` branch
(modeling.py:156-157): `cross_entropy_batch(scores, target.float())` with
`reduction='none'`. -/
def perExampleLosses (exp log : α → α) (scores target : Mat α) : List α :=
  List.zipWith (softCERow exp log) scores target

/-- The `'multi-softmax'` loss (modeling.py:154-162): if the count of
nonzero per-example losses is `0`, return `0 * loss.sum()`; otherwise
`loss.sum() / (loss != 0.0).int().sum()`. -/
def multiSoftmaxLoss (exp log : α → α) (scores target : Mat α) : α :=
  let loss := perExampleLosses exp log scores target
  if loss.countP (fun l => decide (l ≠ 0)) = 0 then 0 * loss.sum
  else loss.sum / (loss.countP (fun l => decide (l ≠ 0)) : α)

/-- `torch.clamp(x, min=lo, max=hi) = min(max(x, lo), hi)`. -/
def clampT (lo hi x : α) : α := min (max x lo) hi

/-- `1e-9`, the lower clamp bound used by `'myloss'`. -/
def eps9 : α := 1 / 1000000000

/-- The retained-row loss of the `'myloss'` branch (modeling.py:172-177):
`-log(clamp(sum(softmax(s) * t), 1e-9, 1.0))`. -/
def mylossRow (exp log : α → α) (s t : List α) : α :=
  -(log (clampT eps9 1 (dotL (softmaxRow exp s) t)))

/-- The `'myloss'` loss (modeling.py:163-179): keep the rows whose target
row-sum is positive (`valid_mask = target.sum(dim=1) > 0`); if none remain,
return `0.0`; otherwise average `mylossRow` over the retained rows. -/
def mylossLoss (exp log : α → α) (scores target : Mat α) : α :=
  let valid := (scores.zip target).filter (fun p => decide (0 < p.2.sum))
  if valid.length = 0 then 0
  else (valid.map (fun p => mylossRow exp log p.1 p.2)).sum / (valid.length : α)

/-- The runtime type of the `target` argument of `compute_loss`: a long
tensor of class indices (implicit-target branch) or a float matrix
(teacher-distilled branch). -/
inductive LossTarget (α : Type) where
  | idx : List ℕ → LossTarget α
  | mat : Mat α → LossTarget α

/-- `compute_loss(scores, target)` (modeling.py:151-181).  The `'softmax'`
branch is `nn.CrossEntropyLoss(reduction='mean')`, which dispatches on the
target dtype (class indices vs class probabilities); `'multi-softmax'` and
`'myloss'` require a 2-D float target (with a 1-D index target PyTorch
raises: shape mismatch in `cross_entropy`, resp. `dim out of range` in
`target.sum(dim=1)`); any other `loss_type` hits `assert 1 > 2`. -/
def compute_loss (exp log : α → α) (loss_type : String) (scores : Mat α)
    (target : LossTarget α) : Except String α :=
  if loss_type = "softmax" then
    match target with
    | .idx t => .ok (ceMeanIdx exp log scores t)
    | .mat t => .ok (ceMeanProb exp log scores t)
  else if loss_type = "multi-softmax" then
    match target with
    | .idx _ => .error "RuntimeError: cross_entropy shape mismatch"
    | .mat t => .ok (multiSoftmaxLoss exp log scores t)
  else if loss_type = "myloss" then
    match target with
    | .idx _ => .error "IndexError: Dimension out of range"
    | .mat t => .ok (mylossLoss exp log scores t)
  else .error "AssertionError"

/-- The configuration state stored by `BiEncoderModel.__init__`
(modeling.py:66-97). -/
structure Config (α : Type) where
  normlized : Bool
  sentence_pooling_method : String
  temperature : α
  loss_type : String
  negatives_x_device : Bool
  contrastive_loss_weight : α
  deriving DecidableEq

/-- `BiEncoderModel.__init__` (modeling.py:66-97): the only raise is
`negatives_x_device` requested while `dist.is_initialized()` is false
(modeling.py:93-95); no other field — in particular `temperature` — is
validated. -/
def init (cfg : Config α) (distInit : Bool) : Except String (Config α) :=
  if cfg.negatives_x_device ∧ ¬distInit then
    .error "Distributed training has not been initialized for representation all gather."
  else .ok cfg

/-- The fields of `EncoderOutput` populated by `forward`. -/
structure ForwardOut (α : Type) where
  q_reps : Option (Mat α)
  p_reps : Option (Mat α)
  loss : Option α
  scores : Option (Mat α)
  deriving DecidableEq

/-- `tensor.view(q, -1)`: flatten and re-chunk into `q` rows. -/
def chunkRows : ℕ → ℕ → List α → Mat α
  | 0, _, _ => []
  | q + 1, c, l => l.take c :: chunkRows q c (l.drop c)

/-- `scores.view(q_reps.size(0), -1)` on a 2-D tensor. -/
def viewRows (M : Mat α) (q : ℕ) : Mat α :=
  let flat := M.flatten
  chunkRows q (flat.length / q) flat

/-- `scores / self.temperature` (elementwise). -/
def divTemp (M : Mat α) (temperature : α) : Mat α :=
  M.map (fun row => row.map (fun x => x / temperature))

/-- `BiEncoderModel.forward` (modeling.py:182-239), taking the already
encoded representations (`encode_query` / `encode_passage` outputs, `none`
for a `None` input).  `gather` is `self._dist_gather_tensor` on a non-None
tensor (applied only when `negatives_x_device`); `training` is
`self.training`.  Mirrors the source: inference short-circuit when either
side is `None`; in training, teacher branch scatters `buildTarget`, no-
teacher branch uses `implicitTarget`; in eval, raw similarity and no loss. -/
def forward (exp log : α → α) (gather : Mat α → Mat α) (cfg : Config α)
    (training : Bool) (q_reps p_reps : Option (Mat α))
    (teacher_score : Option (Mat α)) : Except String (ForwardOut α) :=
  match q_reps, p_reps with
  | none, p => .ok ⟨none, p, none, none⟩
  | some q, none => .ok ⟨some q, none, none, none⟩
  | some q, some p =>
    if training then
      match teacher_score with
      | some ts =>
        let q1 := if cfg.negatives_x_device then gather q else q
        let p1 := if cfg.negatives_x_device then gather p else p
        let ts1 := if cfg.negatives_x_device then gather ts else ts
        let scores := viewRows (divTemp (compute_similarity q1 p1) cfg.temperature) q1.length
        let target := buildTarget scores ts1
        match compute_loss exp log cfg.loss_type scores (.mat target) with
        | .error e => .error e
        | .ok l => .ok ⟨some q1, some p1, some l, some scores⟩
      | none =>
        let q1 := if cfg.negatives_x_device then gather q else q
        let p1 := if cfg.negatives_x_device then gather p else p
        let scores := viewRows (divTemp (compute_similarity q1 p1) cfg.temperature) q1.length
        let target := implicitTarget q1.length p1.length
        match compute_loss exp log cfg.loss_type scores (.idx target) with
        | .error e => .error e
        | .ok l => .ok ⟨some q1, some p1, some l, some scores⟩
    else
      .ok ⟨some q, some p, none, some (compute_similarity q p)⟩

end BiEncoderModel

namespace MultiBiEncoderModel

/-- One element of `nn.HingeEmbeddingLoss(margin=1/2)`:
`(margin - x).clamp_min(0)` where the label is not `1`, plus `x` where the
label is not `-1` (PyTorch's `hinge_embedding_loss`; for labels in
`{1, -1}` this is `x` when `y = 1` and `max(0, margin - x)` when `y = -1`). -/
def hingeElem (margin x y : α) : α :=
  (if y ≠ 1 then max 0 (margin - x) else 0) + (if y ≠ -1 then x else 0)

/-- `MultiBiEncoderModel.compute_loss(scores, target)` (modeling.py:515-541):
`target = target * 2 - 1` flattened, `distance = 1 - scores` flattened, then
`nn.HingeEmbeddingLoss(margin=0.5, reduction='mean')(distance, target)`. -/
def compute_loss (scores target : Mat α) : α :=
  let t := (target.map (fun row => row.map (fun v => v * 2 - 1))).flatten
  let d := (scores.map (fun row => row.map (fun v => 1 - v))).flatten
  let elems := List.zipWith (fun x y => hingeElem (1 / 2) x y) d t
  elems.sum / (elems.length : α)

end MultiBiEncoderModel

/-- A concrete configuration with a negative temperature, used to exhibit the
behavior of construction and forward at `temperature = -1 ≤ 0`. -/
def cfgNegTemp : BiEncoderModel.Config ℚ :=
  { normlized := false
    sentence_pooling_method := "cls"
    temperature := -1
    loss_type := "softmax"
    negatives_x_device := false
    contrastive_loss_weight := 1 }

/-! ## Helper lemmas -/

namespace BiEncoderModel

theorem getD_map_const_zero (r : List α) (j : ℕ) :
    (r.map (fun _ => (0 : α))).getD j 0 = 0 := by
  rw [List.getD_eq_getElem?_getD, List.getElem?_map]
  cases r[j]? <;> simp

theorem teacherIndices_getD (B N i : ℕ) (hi : i < B) :
    (teacherIndices B N).getD i [] = (List.range N).map (fun t => i * N + t) := by
  unfold teacherIndices
  rw [List.getD_eq_getElem?_getD, List.getElem?_map, List.getElem?_range hi]
  rfl

theorem scatterRow_consec (v : List α) (z : List α) (off j : ℕ)
    (hbound : off + v.length ≤ z.length) :
    (scatterRow z ((List.range v.length).map (fun t => off + t)) v).getD j 0 =
      if off ≤ j ∧ j < off + v.length then v.getD (j - off) 0 else z.getD j 0 := by
  induction v generalizing z off with
  | nil =>
    simp only [List.length_nil, List.range_zero, List.map_nil, Nat.add_zero, scatterRow]
    rw [if_neg (by omega)]
  | cons a v ih =>
    have hidx : (List.range (a :: v).length).map (fun t => off + t)
        = off :: (List.range v.length).map (fun t => (off + 1) + t) := by
      simp only [List.length_cons, List.range_succ_eq_map, List.map_cons, List.map_map,
        Nat.add_zero]
      refine congrArg (off :: ·) (List.map_congr_left ?_)
      intro t _
      simp only [Function.comp_apply, Nat.succ_eq_add_one]
      omega
    rw [hidx]
    simp only [scatterRow]
    have hofflt : off < z.length := by
      simp only [List.length_cons] at hbound; omega
    rw [ih (z.set off a) (off + 1)
      (by rw [List.length_set]; simp only [List.length_cons] at hbound; omega)]
    by_cases hj : j = off
    · have h1 : ¬ (off + 1 ≤ j ∧ j < off + 1 + v.length) := by omega
      have h2 : off ≤ j ∧ j < off + (a :: v).length := by
        simp only [List.length_cons]; omega
      rw [if_neg h1, if_pos h2, hj, List.getD_eq_getElem?_getD,
        List.getElem?_set_self hofflt]
      simp [Nat.sub_self]
    · by_cases hin : off + 1 ≤ j ∧ j < off + 1 + v.length
      · have h2 : off ≤ j ∧ j < off + (a :: v).length := by
          simp only [List.length_cons]; omega
        rw [if_pos hin, if_pos h2]
        have hsub : j - off = (j - (off + 1)) + 1 := by omega
        rw [hsub, List.getD_cons_succ]
      · have h2 : ¬ (off ≤ j ∧ j < off + (a :: v).length) := by
          simp only [List.length_cons]; omega
        rw [if_neg hin, if_neg h2]
        rw [List.getD_eq_getElem?_getD, List.getElem?_set_ne (fun h => hj h.symm),
          ← List.getD_eq_getElem?_getD]

theorem scatterDim1_getD (t : Mat α) (idx : List (List ℕ)) (src : Mat α) (i : ℕ)
    (hidx : i < idx.length) (hsrc : i < src.length) (ht : i < t.length) :
    (scatterDim1 t idx src).getD i [] =
      scatterRow (t.getD i []) (idx.getD i []) (src.getD i []) := by
  induction t generalizing idx src i with
  | nil => simp at ht
  | cons tr t iht =>
    cases idx with
    | nil => simp at hidx
    | cons ir idx =>
      cases src with
      | nil => simp at hsrc
      | cons sr src =>
        cases i with
        | zero => simp [scatterDim1]
        | succ n =>
          simp only [scatterDim1, List.getD_cons_succ]
          exact iht idx src n (by simpa using hidx) (by simpa using hsrc)
            (by simpa using ht)

end BiEncoderModel

theorem getD_zipWith {β γ δ : Type} (F : β → γ → δ) (l1 : List β) (l2 : List γ)
    (i : ℕ) (d : δ) (db : β) (dc : γ) (h1 : i < l1.length) (h2 : i < l2.length) :
    (List.zipWith F l1 l2).getD i d = F (l1.getD i db) (l2.getD i dc) := by
  rw [List.getD_eq_getElem?_getD, List.getElem?_zipWith,
    List.getElem?_eq_getElem h1, List.getElem?_eq_getElem h2,
    List.getD_eq_getElem?_getD, List.getElem?_eq_getElem h1,
    List.getD_eq_getElem?_getD, List.getElem?_eq_getElem h2]
  rfl

theorem sum_zipWith_eq_sum_range {M β γ : Type} [AddCommMonoid M]
    (F : β → γ → M) (r : List β) (s : List γ) (n : ℕ) (db : β) (dc : γ)
    (hr : r.length = n) (hs : s.length = n) :
    (List.zipWith F r s).sum =
      ∑ i ∈ Finset.range n, F (r.getD i db) (s.getD i dc) := by
  induction n generalizing r s with
  | zero =>
    obtain rfl := List.length_eq_zero.mp hr
    simp
  | succ n ih =>
    cases r with
    | nil => simp at hr
    | cons a r =>
      cases s with
      | nil => simp at hs
      | cons b s =>
        rw [List.zipWith_cons_cons, List.sum_cons, Finset.sum_range_succ']
        simp only [List.getD_cons_succ, List.getD_cons_zero]
        rw [ih r s (by simpa using hr) (by simpa using hs)]
        exact add_comm _ _

theorem sum_map_filter_zip {M β γ : Type} [AddCommMonoid M]
    (q : β × γ → Bool) (f : β × γ → M) (S : List β) (T : List γ) (n : ℕ)
    (db : β) (dc : γ) (hS : S.length = n) (hT : T.length = n) :
    (((S.zip T).filter q).map f).sum =
      ∑ i ∈ Finset.range n,
        if q (S.getD i db, T.getD i dc) then f (S.getD i db, T.getD i dc) else 0 := by
  induction n generalizing S T with
  | zero =>
    obtain rfl := List.length_eq_zero.mp hS
    simp
  | succ n ih =>
    cases S with
    | nil => simp at hS
    | cons a S =>
      cases T with
      | nil => simp at hT
      | cons b T =>
        rw [List.zip_cons_cons, Finset.sum_range_succ']
        simp only [List.getD_cons_succ, List.getD_cons_zero]
        rw [← ih S T (by simpa using hS) (by simpa using hT)]
        by_cases hq : q (a, b)
        · rw [List.filter_cons_of_pos hq, if_pos hq, List.map_cons, List.sum_cons]
          exact add_comm _ _
        · rw [List.filter_cons_of_neg (by simpa using hq), if_neg hq, add_zero]

theorem length_map_const_one {β : Type} (l : List β) :
    (l.map (fun _ => (1 : ℕ))).sum = l.length := by
  induction l with
  | nil => rfl
  | cons x l ih => simp [ih]; omega

theorem length_filter_zip {β γ : Type} (q : β × γ → Bool) (S : List β)
    (T : List γ) (n : ℕ) (db : β) (dc : γ) (hS : S.length = n) (hT : T.length = n) :
    ((S.zip T).filter q).length =
      ((Finset.range n).filter (fun i => q (S.getD i db, T.getD i dc) = true)).card := by
  rw [← length_map_const_one (((S.zip T).filter q)),
    sum_map_filter_zip q (fun _ => (1 : ℕ)) S T n db dc hS hT, Finset.card_filter]

theorem sum_eq_countP_of_binary (l : List α) (hbin : ∀ v ∈ l, v = 0 ∨ v = 1) :
    l.sum = (l.countP (fun v => decide (v = 1)) : α) := by
  induction l with
  | nil => simp
  | cons a l ih =>
    rw [List.sum_cons, List.countP_cons,
      ih (fun v hv => hbin v (by simp [hv]))]
    rcases hbin a (by simp) with rfl | rfl
    · norm_num
    · norm_num [add_comm]

theorem zipWith_scale_ones (hb : Mat α) (mb : List α) (hlen : mb.length = hb.length)
    (hones : ∀ v ∈ mb, v = 1) :
    List.zipWith (fun hv m => hv.map (fun x => x * m)) hb mb = hb := by
  induction hb generalizing mb with
  | nil => simp
  | cons hv hb ih =>
    cases mb with
    | nil => simp at hlen
    | cons m mb =>
      obtain rfl : m = 1 := hones m (by simp)
      rw [List.zipWith_cons_cons,
        ih mb (by simpa using hlen) (fun v hv' => hones v (by simp [hv']))]
      congr 1
      simp

theorem sum_zipWith_flatten {M : Type} [AddCommMonoid M] (F : α → α → M)
    (g h : α → α) (S T : Mat α) (m n : ℕ)
    (hS : S.length = m) (hT : T.length = m)
    (hSr : ∀ r ∈ S, r.length = n) (hTr : ∀ r ∈ T, r.length = n) :
    (List.zipWith F ((S.map (fun row => row.map g)).flatten)
        ((T.map (fun row => row.map h)).flatten)).sum =
      ∑ i ∈ Finset.range m, ∑ j ∈ Finset.range n,
        F (g (entryD S i j)) (h (entryD T i j)) := by
  induction m generalizing S T with
  | zero =>
    obtain rfl := List.length_eq_zero.mp hS
    obtain rfl := List.length_eq_zero.mp hT
    simp
  | succ m ih =>
    cases S with
    | nil => simp at hS
    | cons r S =>
      cases T with
      | nil => simp at hT
      | cons s T =>
        have hr : r.length = n := hSr r (by simp)
        have hs : s.length = n := hTr s (by simp)
        rw [List.map_cons, List.map_cons, List.flatten_cons, List.flatten_cons,
          List.zipWith_append _ _ _ _ _ (by rw [List.length_map, List.length_map, hr, hs]),
          List.sum_append, Finset.sum_range_succ']
        conv_lhs => rw [add_comm]
        congr 1
        · rw [ih S T (by simpa using hS) (by simpa using hT)
            (fun x hx => hSr x (by simp [hx])) (fun x hx => hTr x (by simp [hx]))]
          refine Finset.sum_congr rfl (fun i _ => Finset.sum_congr rfl (fun j _ => ?_))
          simp [entryD, List.getD_cons_succ]
        · rw [List.zipWith_map_left, List.zipWith_map_right,
            sum_zipWith_eq_sum_range _ r s n 0 0 hr hs]
          refine Finset.sum_congr rfl (fun j _ => ?_)
          simp [entryD, List.getD_cons_zero]

theorem length_flatten_map_row (g : α → α) (S : Mat α) (m n : ℕ)
    (hS : S.length = m) (hSr : ∀ r ∈ S, r.length = n) :
    ((S.map (fun row => row.map g)).flatten).length = m * n := by
  induction m generalizing S with
  | zero =>
    obtain rfl := List.length_eq_zero.mp hS
    simp
  | succ m ih =>
    cases S with
    | nil => simp at hS
    | cons r S =>
      rw [List.map_cons, List.flatten_cons, List.length_append, List.length_map,
        hSr r (by simp), ih S (by simpa using hS) (fun x hx => hSr x (by simp [hx]))]
      ring

/-! ## Claims -/

open BiEncoderModel in
/-- **C1.** For every teacher relevance matrix `R` of shape `B × N` supplied
with a scores matrix of shape `B × (B*N)`, the target matrix constructed at
modeling.py:211-215 has row `i` equal to `R[i]` on columns
`[i*N, i*N + N)` and zero on every other column, for every `i < B`. -/
theorem C1_teacher_scatter_target (B N : ℕ) (scores R : Mat α)
    (hSlen : scores.length = B)
    (hSrow : ∀ r ∈ scores, r.length = B * N)
    (hRlen : R.length = B)
    (hRrow : ∀ r ∈ R, r.length = N)
    (i j : ℕ) (hi : i < B) (hj : j < B * N) :
    entryD (buildTarget scores R) i j =
      if i * N ≤ j ∧ j < i * N + N then entryD R i (j - i * N) else 0 := by
  have hRne : (R.headD []).length = N := by
    cases R with
    | nil => simp at hRlen; omega
    | cons r R => exact hRrow r (by simp)
  have hSi : (scores.getD i []).length = B * N := by
    have hmem : scores.getD i [] ∈ scores := by
      rw [List.getD_eq_getElem?_getD, List.getElem?_eq_getElem (by omega)]
      exact List.getElem_mem _
    exact hSrow _ hmem
  have hRi : (R.getD i []).length = N := by
    have hmem : R.getD i [] ∈ R := by
      rw [List.getD_eq_getElem?_getD, List.getElem?_eq_getElem (by omega)]
      exact List.getElem_mem _
    exact hRrow _ hmem
  unfold entryD buildTarget
  rw [hRlen, hRne]
  rw [scatterDim1_getD _ _ _ i (by simp [teacherIndices]; omega)
    (by omega) (by simp; omega)]
  rw [teacherIndices_getD B N i hi]
  have hzrow : (scores.map (fun row => row.map (fun _ => (0 : α)))).getD i []
      = (scores.getD i []).map (fun _ => (0 : α)) := by
    rw [List.getD_eq_getElem?_getD, List.getElem?_map,
      List.getElem?_eq_getElem (by omega), List.getD_eq_getElem?_getD,
      List.getElem?_eq_getElem (by omega)]
    rfl
  have hb : i * N + (R.getD i []).length ≤
      ((scores.getD i []).map (fun _ => (0 : α))).length := by
    rw [hRi, List.length_map, hSi]
    calc i * N + N = (i + 1) * N := by ring
      _ ≤ B * N := Nat.mul_le_mul_right N hi
  have hsc := scatterRow_consec (R.getD i [])
    ((scores.getD i []).map (fun _ => (0 : α))) (i * N) j hb
  rw [hRi] at hsc
  rw [hzrow, hsc]
  by_cases hc : i * N ≤ j ∧ j < i * N + N
  · rw [if_pos hc, if_pos hc]
  · rw [if_neg hc, if_neg hc, getD_map_const_zero]

open BiEncoderModel in
/-- Witness for C1: a concrete `2 × 2` teacher matrix scattered into a
`2 × 4` scores shape; column `3` of row `1` receives `R[1][1] = 4`. -/
theorem C1_witness :
    entryD (buildTarget (α := ℚ) [[9, 9, 9, 9], [9, 9, 9, 9]] [[1, 2], [3, 4]]) 1 3 =
      if 1 * 2 ≤ 3 ∧ 3 < 1 * 2 + 2 then entryD (α := ℚ) [[1, 2], [3, 4]] 1 (3 - 1 * 2) else 0 :=
  C1_teacher_scatter_target 2 2 [[9, 9, 9, 9], [9, 9, 9, 9]] [[1, 2], [3, 4]]
    (by simp) (by intro r hr; simp only [List.mem_cons, List.not_mem_nil, or_false] at hr;
                  rcases hr with rfl | rfl <;> rfl) (by simp)
    (by intro r hr; simp only [List.mem_cons, List.not_mem_nil, or_false] at hr;
        rcases hr with rfl | rfl <;> rfl) 1 3 (by omega) (by omega)

open BiEncoderModel in
/-- **C2.** For every training forward call with no teacher signal, query
count `Q` and passage count `P = k*Q` with `k` positive, the implicit
integer class target of modeling.py:227-228 satisfies `target[i] = i*k`
for every `i < Q`. -/
theorem C2_implicit_target (Q P k : ℕ) (hk : 0 < k) (hP : P = k * Q)
    (i : ℕ) (hi : i < Q) : (implicitTarget Q P).getD i 0 = i * k := by
  unfold implicitTarget
  rw [List.getD_eq_getElem?_getD, List.getElem?_map, List.getElem?_range hi]
  simp only [Option.map_some', Option.getD_some]
  rw [hP, Nat.mul_div_cancel _ (by omega)]

open BiEncoderModel in
/-- Witness for C2: `Q = 2`, `P = 6 = 3*2`, `i = 1` gives target `3`. -/
theorem C2_witness :
    (0 < 3 ∧ 6 = 3 * 2 ∧ 1 < 2) ∧ (implicitTarget 2 6).getD 1 0 = 1 * 3 :=
  ⟨by decide, C2_implicit_target 2 6 3 (by decide) (by decide) 1 (by decide)⟩

open BiEncoderModel in
/-- **C5 counterexample.** With the unrecognized pooling method `"max"`,
`sentence_embedding` does *not* raise: it falls through both branches of
modeling.py:99-105 and returns the Python value `None` (`Except.ok none`),
the silent fallback the claim rules out. -/
theorem C5_counterexample :
    sentence_embedding (α := ℚ) "max" [[[1]]] [[1]] = Except.ok none := rfl

open BiEncoderModel in
/-- **C5 (amended).** An unrecognized sentence-pooling method (anything
other than `"mean"` and `"cls"`) is not rejected: `sentence_embedding`
silently returns `None`; no error is raised there (the failure can only
surface later, when a caller uses the missing embedding). -/
theorem C5_amended_silent_none (method : String) (hidden_state : List (Mat α))
    (mask : Mat α) (h1 : method ≠ "mean") (h2 : method ≠ "cls") :
    sentence_embedding method hidden_state mask = Except.ok none := by
  unfold sentence_embedding
  rw [if_neg h1, if_neg h2]

open BiEncoderModel in
/-- Witness for the amended C5, at the concrete method `"avg"`. -/
theorem C5_witness :
    ("avg" ≠ "mean" ∧ "avg" ≠ "cls") ∧
      sentence_embedding (α := ℚ) "avg" [] [] = Except.ok none :=
  ⟨by decide, C5_amended_silent_none "avg" [] [] (by decide) (by decide)⟩

open BiEncoderModel in
/-- **C6 counterexample.** `cfgNegTemp` has `temperature = -1 ≤ 0`, yet
`__init__` succeeds (with or without an initialized distributed runtime)
and a training-mode forward runs to completion, returning scores `[[-1]]`
(the similarity `1` divided by the temperature `-1`) and loss `0` — no
error is raised anywhere. -/
theorem C6_counterexample :
    cfgNegTemp.temperature ≤ 0 ∧
    init cfgNegTemp true = Except.ok cfgNegTemp ∧
    init cfgNegTemp false = Except.ok cfgNegTemp ∧
    forward id id id cfgNegTemp true (some [[1]]) (some [[1]]) none =
      Except.ok ⟨some [[1]], some [[1]], some 0, some [[-1]]⟩ := by
  refine ⟨by norm_num [cfgNegTemp], rfl, rfl, ?_⟩
  norm_num [forward, cfgNegTemp, compute_similarity, dotL, viewRows, divTemp, chunkRows,
    implicitTarget, compute_loss, ceMeanIdx, ceRowIdx, logSumExp, List.range_succ]

open BiEncoderModel in
/-- **C6 (amended).** A non-positive temperature is not validated anywhere:
`__init__` raises only for `negatives_x_device` without an initialized
distributed runtime, so with `negatives_x_device = false` construction
succeeds for any temperature, and a training forward (here with the valid
loss type `"softmax"`) runs to completion, dividing the scores by the
non-positive temperature. -/
theorem C6_amended_no_temperature_check (exp log : α → α) (g : Mat α → Mat α)
    (cfg : Config α) (distInit : Bool) (q p : Mat α)
    (htemp : cfg.temperature ≤ 0) (hneg : cfg.negatives_x_device = false)
    (hloss : cfg.loss_type = "softmax") :
    init cfg distInit = Except.ok cfg ∧
    forward exp log g cfg true (some q) (some p) none =
      Except.ok ⟨some q, some p,
        some (ceMeanIdx exp log
          (viewRows (divTemp (compute_similarity q p) cfg.temperature) q.length)
          (implicitTarget q.length p.length)),
        some (viewRows (divTemp (compute_similarity q p) cfg.temperature) q.length)⟩ := by
  constructor
  · unfold init
    rw [if_neg (by simp [hneg])]
  · simp [forward, compute_loss, hneg, hloss]

open BiEncoderModel in
/-- Witness for the amended C6 at `cfgNegTemp` and concrete inputs. -/
theorem C6_witness :
    init cfgNegTemp false = Except.ok cfgNegTemp ∧
    forward id id id cfgNegTemp true (some [[2]]) (some [[3]]) none =
      Except.ok ⟨some [[2]], some [[3]],
        some (ceMeanIdx id id
          (viewRows (divTemp (compute_similarity [[2]] [[3]]) cfgNegTemp.temperature) 1)
          (implicitTarget 1 1)),
        some (viewRows (divTemp (compute_similarity [[2]] [[3]]) cfgNegTemp.temperature) 1)⟩ :=
  C6_amended_no_temperature_check id id id cfgNegTemp false [[2]] [[3]]
    (by norm_num [cfgNegTemp]) rfl rfl

open BiEncoderModel in
/-- **C8.** With `world_size = 1` (so the only rank is `0` and the
collective fills a single buffer), `_dist_gather_tensor` is a no-op: the
buffer at the local rank is overwritten by the local tensor and the
concatenation of that single slot is the input itself; a `None` input
passes through unchanged. -/
theorem C8_gather_world_size_one (all_gather : Mat α → List (Mat α)) (t : Mat α)
    (hlen : (all_gather t).length = 1) :
    dist_gather_tensor 0 all_gather (some t) = some t ∧
    dist_gather_tensor 0 all_gather (none : Option (Mat α)) = none := by
  constructor
  · obtain ⟨m, hm⟩ := List.length_eq_one.mp hlen
    simp [dist_gather_tensor, hm]
  · rfl

open BiEncoderModel in
/-- Witness for C8 with a concrete single-process collective. -/
theorem C8_witness :
    dist_gather_tensor 0 (fun m => [m]) (some [[(1 : ℚ), 2]]) = some [[1, 2]] ∧
    dist_gather_tensor 0 (fun m => [m]) (none : Option (Mat ℚ)) = none :=
  C8_gather_world_size_one (fun m => [m]) [[1, 2]] rfl

open BiEncoderModel in
/-- **C10.** When the model is not in training mode and both query and
passage representations are present, `forward` (modeling.py:231-239)
returns the raw similarity matrix — no division by temperature, no
reshape — and the loss is `None`, for every configuration, gather
function and teacher input. -/
theorem C10_eval_raw_scores (exp log : α → α) (g : Mat α → Mat α)
    (cfg : Config α) (q p : Mat α) (teacher : Option (Mat α)) :
    forward exp log g cfg false (some q) (some p) teacher =
      Except.ok ⟨some q, some p, none, some (compute_similarity q p)⟩ := rfl

open BiEncoderModel in
/-- **C3.** The `'multi-softmax'` loss equals the sum of the per-example
unreduced cross-entropy losses divided by the number of examples whose loss
is nonzero; when every example's per-example loss is exactly zero it
returns zero (via `0 * loss.sum()`, without dividing by zero).  The
gradient-graph side of the claim is an autograd property outside this
value-level embedding. -/
theorem C3_multi_softmax (exp log : α → α) (scores target : Mat α) :
    ((∀ l ∈ perExampleLosses exp log scores target, l = 0) →
      multiSoftmaxLoss exp log scores target = 0) ∧
    ((∃ l ∈ perExampleLosses exp log scores target, l ≠ 0) →
      multiSoftmaxLoss exp log scores target =
        (perExampleLosses exp log scores target).sum /
          ((perExampleLosses exp log scores target).countP
            (fun l => decide (l ≠ 0)) : α)) := by
  constructor
  · intro hall
    simp only [multiSoftmaxLoss]
    rw [if_pos, zero_mul]
    rw [List.countP_eq_zero]
    intro a ha
    simp [hall a ha]
  · rintro ⟨l, hl, hlne⟩
    simp only [multiSoftmaxLoss]
    rw [if_neg]
    intro hzero
    rw [List.countP_eq_zero] at hzero
    exact hzero l hl (by simpa using hlne)

open BiEncoderModel in
/-- Witness for C3: both scores and target are the single row `[0]`; the
per-example loss is `0 * (0 - log(exp 0)) = 0`, so the loss is `0`. -/
theorem C3_witness : multiSoftmaxLoss (α := ℚ) id id [[0]] [[0]] = 0 :=
  (C3_multi_softmax id id [[0]] [[0]]).1
    (by norm_num [perExampleLosses, softCERow, logSumExp])

open BiEncoderModel in
/-- **C4.** The `'myloss'` value equals the mean, over the rows whose target
row-sum is positive, of `-log(clamp(softmax(scores_row) · target_row,
1e-9, 1.0))`; when no row has a positive target row-sum it returns exactly
`0`.  (The gradient-tracking side of the claim is an autograd property
outside this value-level embedding.) -/
theorem C4_myloss (exp log : α → α) (scores target : Mat α) (n : ℕ)
    (hS : scores.length = n) (hT : target.length = n) :
    mylossLoss exp log scores target =
      if ((Finset.range n).filter (fun i => 0 < (target.getD i []).sum)).card = 0 then 0
      else (∑ i ∈ (Finset.range n).filter (fun i => 0 < (target.getD i []).sum),
              mylossRow exp log (scores.getD i []) (target.getD i []))
        / (((Finset.range n).filter (fun i => 0 < (target.getD i []).sum)).card : α) := by
  have hcount :
      ((scores.zip target).filter (fun p => decide (0 < p.2.sum))).length =
        ((Finset.range n).filter (fun i => 0 < (target.getD i []).sum)).card := by
    rw [length_filter_zip (fun p : List α × List α => decide (0 < p.2.sum))
      scores target n [] [] hS hT]
    congr 1
    refine Finset.filter_congr (fun i _ => ?_)
    simp
  have hsum :
      (((scores.zip target).filter (fun p => decide (0 < p.2.sum))).map
          (fun p => mylossRow exp log p.1 p.2)).sum =
        ∑ i ∈ (Finset.range n).filter (fun i => 0 < (target.getD i []).sum),
          mylossRow exp log (scores.getD i []) (target.getD i []) := by
    rw [sum_map_filter_zip (fun p : List α × List α => decide (0 < p.2.sum))
      (fun p => mylossRow exp log p.1 p.2) scores target n [] [] hS hT,
      Finset.sum_filter]
    refine Finset.sum_congr rfl (fun i _ => ?_)
    simp
  simp only [mylossLoss]
  rw [hcount, hsum]

open BiEncoderModel in
/-- Witness for C4: a batch whose single target row sums to zero is fully
masked out, and the loss is exactly `0`. -/
theorem C4_witness : mylossLoss (α := ℚ) id id [[5]] [[0]] = 0 :=
  (C4_myloss id id [[5]] [[0]] 1 rfl rfl).trans
    (by norm_num [Finset.range_one, Finset.filter_singleton])

open BiEncoderModel in
/-- **C7.** For every hidden-state tensor and 0/1 attention mask in which
example `b` has at least one unmasked token, mean pooling returns for
example `b` the sequence-axis sum of the hidden states scaled elementwise
by the mask (broadcast over the hidden dimension), divided by that
example's count of unmasked tokens; for an all-ones mask row this is the
plain average of the token vectors. -/
theorem C7_mean_pooling (hidden_state : List (Mat α)) (mask : Mat α) (b : ℕ)
    (hb1 : b < hidden_state.length) (hb2 : b < mask.length)
    (hbin : ∀ v ∈ mask.getD b [], v = 0 ∨ v = 1)
    (hpos : 0 < (mask.getD b []).countP (fun v => decide (v = 1))) :
    sentence_embedding "mean" hidden_state mask =
      Except.ok (some (meanPool hidden_state mask)) ∧
    (meanPool hidden_state mask).getD b [] =
      (sumVecs (List.zipWith (fun hv m => hv.map (fun x => x * m))
          (hidden_state.getD b []) (mask.getD b []))).map
        (fun x => x / ((mask.getD b []).countP (fun v => decide (v = 1)) : α)) ∧
    ((∀ v ∈ mask.getD b [], v = 1) →
      (mask.getD b []).length = (hidden_state.getD b []).length →
      (meanPool hidden_state mask).getD b [] =
        (sumVecs (hidden_state.getD b [])).map
          (fun x => x / ((hidden_state.getD b []).length : α))) := by
  have hrow : (meanPool hidden_state mask).getD b [] =
      (sumVecs (List.zipWith (fun hv m => hv.map (fun x => x * m))
          (hidden_state.getD b []) (mask.getD b []))).map
        (fun x => x / (mask.getD b []).sum) := by
    simp only [meanPool]
    rw [getD_zipWith _ hidden_state mask b [] [] [] hb1 hb2]
  refine ⟨rfl, ?_, ?_⟩
  · rw [hrow, sum_eq_countP_of_binary _ hbin]
  · intro hones hlen
    rw [hrow, zipWith_scale_ones _ _ hlen hones,
      sum_eq_countP_of_binary _ (fun v hv => Or.inr (hones v hv)),
      List.countP_eq_length.mpr (fun v hv => by simp [hones v hv]), hlen]

open BiEncoderModel in
/-- Witness for C7: one example, two tokens, mask `[1, 0]`: the pooled
vector is the first token vector. -/
theorem C7_witness :
    (0 < 1 ∧ 0 < 1) ∧
    (sentence_embedding (α := ℚ) "mean" [[[1, 2], [3, 4]]] [[1, 0]] =
      Except.ok (some (meanPool [[[1, 2], [3, 4]]] [[1, 0]])) ∧
    (meanPool (α := ℚ) [[[1, 2], [3, 4]]] [[1, 0]]).getD 0 [] =
      (sumVecs (List.zipWith (fun hv m => hv.map (fun x => x * m))
          ([[[(1 : ℚ), 2], [3, 4]]].getD 0 []) ([[(1 : ℚ), 0]].getD 0 []))).map
        (fun x => x / (([[(1 : ℚ), 0]].getD 0 []).countP (fun v => decide (v = 1)) : ℚ)) ∧
    ((∀ v ∈ [[(1 : ℚ), 0]].getD 0 [], v = 1) →
      ([[(1 : ℚ), 0]].getD 0 []).length = ([[[(1 : ℚ), 2], [3, 4]]].getD 0 []).length →
      (meanPool (α := ℚ) [[[1, 2], [3, 4]]] [[1, 0]]).getD 0 [] =
        (sumVecs ([[[(1 : ℚ), 2], [3, 4]]].getD 0 [])).map
          (fun x => x / (([[[(1 : ℚ), 2], [3, 4]]].getD 0 []).length : ℚ)))) :=
  ⟨by norm_num,
   C7_mean_pooling [[[1, 2], [3, 4]]] [[1, 0]] 0 (by norm_num) (by norm_num)
     (by intro v hv
         simp only [List.getD_cons_zero, List.mem_cons, List.not_mem_nil, or_false] at hv
         rcases hv with rfl | rfl
         · right; rfl
         · left; rfl)
     (by norm_num)⟩

/-- **C9.** The multi-encoder variant's loss equals the mean-reduced hinge
embedding loss with margin `1/2` applied to the fully flattened distance
tensor `1 - S` against the fully flattened label tensor `T*2 - 1`: for an
`m × n` batch it is the double sum of per-entry hinge terms divided by
`m * n`. -/
theorem C9_hinge_loss (scores target : Mat α) (m n : ℕ)
    (hS : scores.length = m) (hT : target.length = m)
    (hSr : ∀ r ∈ scores, r.length = n) (hTr : ∀ r ∈ target, r.length = n) :
    MultiBiEncoderModel.compute_loss scores target =
      (∑ i ∈ Finset.range m, ∑ j ∈ Finset.range n,
          MultiBiEncoderModel.hingeElem (1 / 2) (1 - entryD scores i j)
            (entryD target i j * 2 - 1))
        / ((m * n : ℕ) : α) := by
  simp only [MultiBiEncoderModel.compute_loss]
  rw [sum_zipWith_flatten (fun x y => MultiBiEncoderModel.hingeElem (1 / 2) x y)
    (fun v => 1 - v) (fun v => v * 2 - 1) scores target m n hS hT hSr hTr]
  congr 1
  rw [List.length_zipWith,
    length_flatten_map_row (fun v => 1 - v) scores m n hS hSr,
    length_flatten_map_row (fun v => v * 2 - 1) target m n hT hTr,
    min_self]

/-- Witness for C9: `target = 1` everywhere and `scores = 1` everywhere
(distance `0`, all labels `+1`), on a `2 × 2` batch: the loss is `0`. -/
theorem C9_witness :
    MultiBiEncoderModel.compute_loss (α := ℚ) [[1, 1], [1, 1]] [[1, 1], [1, 1]] = 0 :=
  (C9_hinge_loss [[1, 1], [1, 1]] [[1, 1], [1, 1]] 2 2 rfl rfl
      (by intro r hr
          simp only [List.mem_cons, List.not_mem_nil, or_false] at hr
          rcases hr with rfl | rfl <;> rfl)
      (by intro r hr
          simp only [List.mem_cons, List.not_mem_nil, or_false] at hr
          rcases hr with rfl | rfl <;> rfl)).trans
    (by norm_num [MultiBiEncoderModel.hingeElem, entryD, Finset.sum_range_succ])

end BiEncode
